import Mathlib

-- Verification development for the Gemini-Coder-CLI execution core:
-- action extraction / normalization (src/cliagent/json_parser.py),
-- the process supervisor (src/cliagent/process_manager.py),
-- command handlers (src/cliagent/command_executor.py) and the
-- per-turn action dispatch loop (src/cliagent/main.py).
-- Python strings are modelled as Lean String / List Char; Python dicts
-- as association lists with unique keys (insertion order preserved);
-- machine integers as Int/Nat.  All definitions use structural (or
-- fueled) recursion so they evaluate inside the kernel.

namespace GCli

-- ## Python string primitives

-- Characters stripped by Python str.strip() and matched by regex \s (ASCII range).
def pyWsChar (c : Char) : Bool :=
  c == ' ' || c == '\t' || c == '\n' || c == '\r' || c == Char.ofNat 11 || c == Char.ofNat 12

def pyStripChars (cs : List Char) : List Char :=
  ((cs.dropWhile pyWsChar).reverse.dropWhile pyWsChar).reverse

def pyStrip (s : String) : String := String.mk (pyStripChars s.data)

-- startsL needle hay: does hay start with needle?
def startsL : List Char → List Char → Bool
  | [], _ => true
  | _ :: _, [] => false
  | a :: as, b :: bs => a == b && startsL as bs

-- subL needle hay: does needle occur as a contiguous run inside hay?
def subL (needle : List Char) : List Char → Bool
  | [] => needle.isEmpty
  | c :: t => startsL needle (c :: t) || subL needle t

def pyLowerStr (s : String) : String := String.mk (s.data.map Char.toLower)

-- Line terminators recognized by Python str.splitlines (ASCII subset plus NEL/LS/PS).
def lineBreakChar (c : Char) : Bool :=
  c == '\n' || c == '\r' || c == Char.ofNat 11 || c == Char.ofNat 12 ||
  c == Char.ofNat 28 || c == Char.ofNat 29 || c == Char.ofNat 30 ||
  c == Char.ofNat 0x85 || c == Char.ofNat 0x2028 || c == Char.ofNat 0x2029

def splitLinesGo : List Char → List Char → List (List Char)
  | [], acc => if acc.isEmpty then [] else [acc.reverse]
  | '\r' :: '\n' :: t, acc => acc.reverse :: splitLinesGo t []
  | c :: t, acc =>
    if lineBreakChar c then acc.reverse :: splitLinesGo t []
    else splitLinesGo t (c :: acc)

def splitLinesPy (s : String) : List String := (splitLinesGo s.data []).map String.mk

def isDigitCh (c : Char) : Bool := 48 ≤ c.toNat && c.toNat ≤ 57

def digitsToNatGo : List Char → Nat → Option Nat
  | [], acc => some acc
  | c :: t, acc =>
    if isDigitCh c then digitsToNatGo t (acc * 10 + (c.toNat - 48)) else none

-- Python int(s): strip whitespace, optional sign, then a nonempty digit run.
def pyToIntOpt (s : String) : Option Int :=
  match pyStripChars s.data with
  | [] => none
  | '+' :: t =>
    match t with
    | [] => none
    | _ => (digitsToNatGo t 0).map Int.ofNat
  | '-' :: t =>
    match t with
    | [] => none
    | _ => (digitsToNatGo t 0).map (fun n => -(n : Int))
  | cs => (digitsToNatGo cs 0).map Int.ofNat

-- ## JSON values and Python-dict operations

inductive JVal : Type where
  | jnull : JVal
  | jbool : Bool → JVal
  | jnum : String → JVal
  | jstr : String → JVal
  | jarr : List JVal → JVal
  | jobj : List (String × JVal) → JVal

abbrev Dict := List (String × JVal)

def dictGet : Dict → String → Option JVal
  | [], _ => none
  | (k, v) :: t, key => if k == key then some v else dictGet t key

def dictHas (d : Dict) (k : String) : Bool := (dictGet d k).isSome

def dictSet : Dict → String → JVal → Dict
  | [], key, v => [(key, v)]
  | (k, w) :: t, key, v =>
    if k == key then (k, v) :: t else (k, w) :: dictSet t key v

-- ## A strict JSON parser (json.loads on the shapes this program feeds it)

def skipJsonWs (cs : List Char) : List Char :=
  cs.dropWhile (fun c => c == ' ' || c == '\t' || c == '\n' || c == '\r')

def hexVal (c : Char) : Option Nat :=
  if 48 ≤ c.toNat && c.toNat ≤ 57 then some (c.toNat - 48)
  else if 97 ≤ c.toNat && c.toNat ≤ 102 then some (c.toNat - 87)
  else if 65 ≤ c.toNat && c.toNat ≤ 70 then some (c.toNat - 55)
  else none

def parseStringBody : Nat → List Char → List Char → Option (String × List Char)
  | 0, _, _ => none
  | _ + 1, [], _ => none
  | f + 1, c :: t, acc =>
    if c == '"' then some (String.mk acc.reverse, t)
    else if c == '\\' then
      match t with
      | [] => none
      | e :: t2 =>
        if e == '"' then parseStringBody f t2 ('"' :: acc)
        else if e == '\\' then parseStringBody f t2 ('\\' :: acc)
        else if e == '/' then parseStringBody f t2 ('/' :: acc)
        else if e == 'b' then parseStringBody f t2 (Char.ofNat 8 :: acc)
        else if e == 'f' then parseStringBody f t2 (Char.ofNat 12 :: acc)
        else if e == 'n' then parseStringBody f t2 ('\n' :: acc)
        else if e == 'r' then parseStringBody f t2 ('\r' :: acc)
        else if e == 't' then parseStringBody f t2 ('\t' :: acc)
        else if e == 'u' then
          match t2 with
          | h1 :: h2 :: h3 :: h4 :: t3 =>
            match hexVal h1, hexVal h2, hexVal h3, hexVal h4 with
            | some a, some b, some cdig, some d =>
              parseStringBody f t3 (Char.ofNat (a * 4096 + b * 256 + cdig * 16 + d) :: acc)
            | _, _, _, _ => none
          | _ => none
        else none
    else if c.toNat < 32 then none
    else parseStringBody f t (c :: acc)

def spanDigits : List Char → (List Char × List Char)
  | [] => ([], [])
  | c :: t =>
    if isDigitCh c then
      let p := spanDigits t
      (c :: p.1, p.2)
    else ([], c :: t)

-- JSON number grammar; the lexeme is kept as the value.
def parseNumber (cs : List Char) : Option (String × List Char) :=
  let sgn : List Char × List Char :=
    match cs with
    | '-' :: t => (['-'], t)
    | _ => ([], cs)
  match sgn.2 with
  | [] => none
  | c :: t =>
    if c == '0' then
      parseNumberFrac (sgn.1 ++ ['0']) t
    else if isDigitCh c then
      let p := spanDigits (c :: t)
      parseNumberFrac (sgn.1 ++ p.1) p.2
    else none
where
  parseNumberFrac (intPart : List Char) (rest : List Char) : Option (String × List Char) :=
    match rest with
    | '.' :: t =>
      let p := spanDigits t
      match p.1 with
      | [] => none
      | _ => parseNumberExp (intPart ++ '.' :: p.1) p.2
    | _ => parseNumberExp intPart rest
  parseNumberExp (mant : List Char) (rest : List Char) : Option (String × List Char) :=
    match rest with
    | 'e' :: t => parseNumberExpTail mant 'e' t
    | 'E' :: t => parseNumberExpTail mant 'E' t
    | _ => some (String.mk mant, rest)
  parseNumberExpTail (mant : List Char) (e : Char) (rest : List Char) :
      Option (String × List Char) :=
    let sgn2 : List Char × List Char :=
      match rest with
      | '+' :: t => (['+'], t)
      | '-' :: t => (['-'], t)
      | _ => ([], rest)
    let p := spanDigits sgn2.2
    match p.1 with
    | [] => none
    | _ => some (String.mk (mant ++ e :: sgn2.1 ++ p.1), p.2)

inductive PMode : Type where
  | val : PMode
  | arrItem : List JVal → PMode
  | objPair : Dict → PMode

def parseCore : Nat → PMode → List Char → Option (JVal × List Char)
  | 0, _, _ => none
  | f + 1, PMode.val, cs =>
    match skipJsonWs cs with
    | [] => none
    | c :: t =>
      if c == 'n' then
        if startsL "ull".data t then some (JVal.jnull, t.drop 3) else none
      else if c == 't' then
        if startsL "rue".data t then some (JVal.jbool true, t.drop 3) else none
      else if c == 'f' then
        if startsL "alse".data t then some (JVal.jbool false, t.drop 4) else none
      else if c == '"' then
        (parseStringBody f t []).map (fun p => (JVal.jstr p.1, p.2))
      else if c == '{' then
        match skipJsonWs t with
        | '}' :: r => some (JVal.jobj [], r)
        | _ => parseCore f (PMode.objPair []) t
      else if c == '[' then
        match skipJsonWs t with
        | ']' :: r => some (JVal.jarr [], r)
        | _ => parseCore f (PMode.arrItem []) t
      else if c == '-' || isDigitCh c then
        (parseNumber (c :: t)).map (fun p => (JVal.jnum p.1, p.2))
      else none
  | f + 1, PMode.arrItem acc, cs =>
    match parseCore f PMode.val cs with
    | some (v, r) =>
      match skipJsonWs r with
      | ',' :: r2 => parseCore f (PMode.arrItem (acc ++ [v])) r2
      | ']' :: r2 => some (JVal.jarr (acc ++ [v]), r2)
      | _ => none
    | none => none
  | f + 1, PMode.objPair acc, cs =>
    match skipJsonWs cs with
    | '"' :: t =>
      match parseStringBody f t [] with
      | some (k, r1) =>
        match skipJsonWs r1 with
        | ':' :: r2 =>
          match parseCore f PMode.val r2 with
          | some (v, r3) =>
            match skipJsonWs r3 with
            | ',' :: r4 => parseCore f (PMode.objPair (dictSet acc k v)) r4
            | '}' :: r4 => some (JVal.jobj (dictSet acc k v), r4)
            | _ => none
          | none => none
        | _ => none
      | none => none
    | _ => none

-- json.loads: parse one value, then only trailing whitespace may remain.
def jparse (s : String) : Option JVal :=
  match parseCore (s.data.length + 4) PMode.val s.data with
  | some (v, rest) => if (skipJsonWs rest).isEmpty then some v else none
  | none => none

-- ## Action normalization (json_parser.normalize_action_object)

-- The fixed alias table mapping synonym operation names to canonical ones.
def action_map_lookup : String → Option String
  | "create_directory" => some "create_folder"
  | "mkdir" => some "create_folder"
  | "make_directory" => some "create_folder"
  | "make_folder" => some "create_folder"
  | "make_dir" => some "create_folder"
  | "create_dir" => some "create_folder"
  | "delete_directory" => some "delete_folder"
  | "rmdir" => some "delete_folder"
  | "remove_directory" => some "delete_folder"
  | "remove_folder" => some "delete_folder"
  | "rm_dir" => some "delete_folder"
  | "rm_folder" => some "delete_folder"
  | "write_file" => some "create_file"
  | "make_file" => some "create_file"
  | "remove_file" => some "delete_file"
  | "rm_file" => some "delete_file"
  | "rm" => some "delete_file"
  | "cd" => some "change_directory"
  | "chdir" => some "change_directory"
  | "ls" => some "list_directory"
  | "dir" => some "list_directory"
  | "list_dir" => some "list_directory"
  | "execute" => some "run_command"
  | "exec" => some "run_command"
  | "run" => some "run_command"
  | "shell" => some "run_command"
  | "cat" => some "read_file"
  | "view_file" => some "read_file"
  | "open_file" => some "read_file"
  | "modify_file" => some "update_file"
  | "edit_file" => some "update_file"
  | "input_to_process" => some "send_input_to_process"
  | "process_input" => some "send_input_to_process"
  | "send_to_process" => some "send_input_to_process"
  | "terminate_process" => some "kill_process"
  | "stop_process" => some "kill_process"
  | "end_process" => some "kill_process"
  | _ => none

-- Per-operation (canonical parameter, accepted synonym keys) table.
def parameter_mappings : String → List (String × List String)
  | "create_folder" =>
    [("path", ["path", "dir_path", "directory_path", "folder_path", "dirname", "dir", "folder", "directory"])]
  | "create_file" =>
    [("path", ["path", "file_path", "filepath", "filename", "file", "destination", "dest"]),
     ("content", ["content", "file_content", "text", "data", "source", "code", "body", "contents"])]
  | "read_file" =>
    [("path", ["path", "file_path", "filepath", "filename", "file", "source", "src"])]
  | "update_file" =>
    [("path", ["path", "file_path", "filepath", "filename", "file", "target"]),
     ("content", ["content", "file_content", "text", "data", "new_content", "code", "body", "contents"]),
     ("mode", ["mode", "update_mode", "edit_mode", "method", "operation"]),
     ("line_number", ["line_number", "line", "line_num", "at_line", "lineno"]),
     ("start_line", ["start_line", "start", "from_line", "begin_line", "first_line"]),
     ("end_line", ["end_line", "end", "to_line", "last_line"])]
  | "delete_file" =>
    [("path", ["path", "file_path", "filepath", "filename", "file", "target"])]
  | "delete_folder" =>
    [("path", ["path", "dir_path", "directory_path", "folder_path", "dirname", "dir", "folder", "directory", "target"])]
  | "list_directory" =>
    [("path", ["path", "dir_path", "directory_path", "folder_path", "dirname", "dir", "folder", "directory"])]
  | "change_directory" =>
    [("path", ["path", "dir_path", "directory_path", "folder_path", "dirname", "dir", "folder", "directory", "cd_path", "to", "destination"])]
  | "run_command" =>
    [("command_string", ["command_string", "command", "cmd", "shell_command", "exec", "execute", "run"]),
     ("cid", ["cid", "command_id", "id", "identifier"])]
  | "send_input_to_process" =>
    [("pid_or_cid", ["pid_or_cid", "pid", "cid", "process_id", "command_id", "id", "identifier", "process"]),
     ("input_data", ["input_data", "input", "data", "text", "stdin", "command_input"])]
  | "kill_process" =>
    [("pid_or_cid", ["pid_or_cid", "pid", "cid", "process_id", "command_id", "id", "identifier", "process"])]
  | _ => []

-- For each canonical parameter, copy the first present synonym into the
-- canonical key when the canonical key is absent (original key retained).
def applyParamMap (args : Dict) (pairs : List (String × List String)) : Dict :=
  pairs.foldl
    (fun a p =>
      p.2.foldl
        (fun a2 variant =>
          if dictHas a2 variant && variant != p.1 && !(dictHas a2 p.1) then
            dictSet a2 p.1 ((dictGet a2 variant).getD JVal.jnull)
          else a2)
        a)
    args

-- Remainder of a "cd <dir>" command after the prefix, as the code computes it.
def cdTarget (cmd : String) : String :=
  pyStrip (String.mk ((pyStrip cmd).data.drop 3))

def normalize_action_object (vo : JVal) : Option Dict :=
  match vo with
  | JVal.jobj obj0 =>
    match dictGet obj0 "action" with
    | some (JVal.jstr action) =>
      -- special handling for directory changes via run_command
      let obj1 : Dict :=
        if action == "run_command" then
          match dictGet obj0 "args" with
          | some (JVal.jobj a) =>
            match dictGet a "command_string" with
            | some (JVal.jstr cmd) =>
              if startsL "cd ".data (pyStrip cmd).data then
                dictSet (dictSet obj0 "action" (JVal.jstr "change_directory"))
                  "args" (JVal.jobj [("path", JVal.jstr (cdTarget cmd))])
              else obj0
            | _ => obj0
          | _ => obj0
        else obj0
      -- name normalization keyed on the ORIGINAL action string
      let obj2 : Dict :=
        match action_map_lookup action with
        | some correct => dictSet obj1 "action" (JVal.jstr correct)
        | none => obj1
      -- ensure args exist and are a dict
      let obj3 : Dict :=
        match dictGet obj2 "args" with
        | some (JVal.jobj _) => obj2
        | _ => dictSet obj2 "args" (JVal.jobj [])
      let curAction : String :=
        match dictGet obj3 "action" with
        | some (JVal.jstr s) => s
        | _ => ""
      let args0 : Dict :=
        match dictGet obj3 "args" with
        | some (JVal.jobj a) => a
        | _ => []
      let args1 := applyParamMap args0 (parameter_mappings curAction)
      let args2 :=
        if curAction == "run_command" && !(dictHas args1 "interactive") then
          dictSet args1 "interactive" (JVal.jbool true)
        else args1
      some (dictSet obj3 "args" (JVal.jobj args2))
    | _ => none
  | _ => none

-- The normalization loop run over a parsed array: non-dict entries are
-- skipped, and entries the normalizer rejects are dropped.
def normalizeActions (items : List JVal) : List Dict :=
  items.filterMap
    (fun it =>
      match it with
      | JVal.jobj _ => normalize_action_object it
      | _ => none)

-- ## Extraction (json_parser.extract_json_from_response)

-- Match of the regex \[\s*\{\s*"action" at the head of a character list.
def arrayActionPatAt (cs : List Char) : Bool :=
  match cs with
  | '[' :: r =>
    match r.dropWhile pyWsChar with
    | '{' :: r2 => startsL "\"action\"".data (r2.dropWhile pyWsChar)
    | _ => false
  | _ => false

-- Leftmost suffix of the text at which that regex matches (re.search).
def findArrAction : List Char → Option (List Char)
  | [] => none
  | c :: t => if arrayActionPatAt (c :: t) then some (c :: t) else findArrAction t

-- The balanced-bracket scan of the source: starting after an opening '[',
-- count every '[' and ']' character (string literals are NOT skipped) and
-- stop when the count returns to zero.
def bracketScanGo : List Char → Nat → List Char → Option (List Char)
  | [], _, _ => none
  | c :: t, k, acc =>
    let k2 : Nat := if c == '[' then k + 1 else if c == ']' then k - 1 else k
    if k2 == 0 then some ((c :: acc).reverse)
    else bracketScanGo t k2 (c :: acc)

def bracketSegment : List Char → Option (List Char)
  | '[' :: rest => bracketScanGo rest 1 ['[']
  | _ => none

-- Characters up to (excluding) the first occurrence of a closing fence.
def takeUntilTicks : List Char → Option (List Char)
  | [] => none
  | c :: t =>
    if startsL "```".data (c :: t) then some []
    else (takeUntilTicks t).map (fun l => c :: l)

-- Leftmost match of the regex from the source fenced-block search; the
-- captured group is the fence content with surrounding whitespace trimmed.
def findFenced : List Char → Option (List Char)
  | [] => none
  | c :: t =>
    if startsL "```json".data (c :: t) then
      match takeUntilTicks ((c :: t).drop 7) with
      | some content => some (pyStripChars content)
      | none => findFenced t
    else findFenced t

-- Python startswith of a single character on a (stripped) text.
def headIsCh (ch : Char) : List Char → Bool
  | [] => false
  | c :: _ => c == ch

-- re.search of adjacent top-level objects: a brace pair separated only by whitespace.
def hasAdjacency : List Char → Bool
  | [] => false
  | c :: t =>
    (c == '}' &&
      (match t.dropWhile pyWsChar with
       | '{' :: _ => true
       | _ => false)) || hasAdjacency t

-- re.sub replacing every whitespace-separated brace adjacency with a comma
-- (fueled; the fuel is the character count, each step consumes a character).
def subAdjF : Nat → List Char → List Char
  | 0, cs => cs
  | _ + 1, [] => []
  | f + 1, c :: t =>
    if c == '}' then
      match (t.dropWhile pyWsChar) with
      | '{' :: rest => '}' :: ',' :: '{' :: subAdjF f rest
      | _ => '}' :: subAdjF f t
    else c :: subAdjF f t

def subAdj (cs : List Char) : List Char := subAdjF (cs.length + 1) cs

-- Branch (a) of the extractor: raw array located by the action-pattern
-- regex plus the bracket scan; `none` means the branch fell through.
def rawArrayBranch (cs : List Char) : Option (List Dict) :=
  match findArrAction cs with
  | none => none
  | some suffix =>
    match bracketSegment suffix with
    | none => none
    | some seg =>
      match jparse (String.mk seg) with
      | some (JVal.jarr items) => some (normalizeActions items)
      | _ => none

-- Wrapper-object unwrapping inside the fenced branch.
def unwrapWrapper (d : Dict) : JVal :=
  if (match dictGet d "action" with
      | some (JVal.jstr s) => s == "multiple_actions"
      | _ => false) && dictHas d "actions" then
    match dictGet d "actions" with
    | some (JVal.jarr l) => JVal.jarr l
    | _ => JVal.jobj d
  else
    match dictGet d "action_items" with
    | some (JVal.jarr l) => JVal.jarr l
    | _ =>
      match dictGet d "commands" with
      | some (JVal.jarr l) => JVal.jarr l
      | _ => JVal.jobj d

def fencedDispatch : JVal → Option (List Dict)
  | JVal.jobj d =>
    (match unwrapWrapper d with
     | JVal.jarr items => some (normalizeActions items)
     | JVal.jobj d2 =>
       (match normalize_action_object (JVal.jobj d2) with
        | some x => some [x]
        | none => none)
     | _ => none)
  | JVal.jarr items => some (normalizeActions items)
  | _ => none

-- Fenced branch after the leading array fast path: optional adjacency
-- repair, a strict parse, and on parse failure one more repair attempt.
def fencedStage2 (js : List Char) : Option (List Dict) :=
  let js2 : List Char :=
    if headIsCh '{' (pyStripChars js) && hasAdjacency js then
      '[' :: (subAdj js ++ [']'])
    else js
  match jparse (String.mk js2) with
  | some v => fencedDispatch v
  | none =>
    if subL "\x7d\x7b".data js2 then
      match jparse (String.mk ('[' :: (subAdj js2 ++ [']']))) with
      | some (JVal.jarr items) => some (normalizeActions items)
      | _ => none
    else none

def fencedProcess (js : List Char) : Option (List Dict) :=
  if headIsCh '[' (pyStripChars js) then
    match jparse (String.mk js) with
    | some (JVal.jarr items) => some (normalizeActions items)
    | _ => fencedStage2 js
  else fencedStage2 js

-- Inner raw-array attempt of the unfenced fallback branch: scan from the
-- first '[' of the whole text; `none` means fall through.
def fallbackArrayScan (cs : List Char) : Option (List Dict) :=
  match bracketSegment (cs.dropWhile (fun c => !(c == '['))) with
  | none => none
  | some seg =>
    match jparse (String.mk seg) with
    | some (JVal.jarr items) => some (normalizeActions items)
    | _ => none

def fallbackBranch (cs : List Char) : Option (List Dict) :=
  let t := pyStripChars cs
  if cs.isEmpty then none
  else if headIsCh '[' t then
    (match fallbackArrayScan cs with
     | some r => some r
     | none => fallbackFinal cs)
  else if headIsCh '{' t then fallbackFinal cs
  else none
where
  fallbackFinal (cs : List Char) : Option (List Dict) :=
    let t := pyStripChars cs
    let cs2 : List Char :=
      if headIsCh '{' t && hasAdjacency cs then
        '[' :: (subAdj cs ++ [']'])
      else cs
    match jparse (String.mk (pyStripChars cs2)) with
    | some (JVal.jarr items) => some (normalizeActions items)
    | some (JVal.jobj d) =>
      (match normalize_action_object (JVal.jobj d) with
       | some x => some [x]
       | none => none)
    | some _ => none
    | none => none

-- The whole extractor: raw-array branch, then fenced branch, then the
-- unfenced fallback; every failure path degrades to `none`.
def extract_json_from_response (text : String) : Option (List Dict) :=
  match rawArrayBranch text.data with
  | some r => some r
  | none =>
    match findFenced text.data with
    | some js => fencedProcess js
    | none => fallbackBranch text.data

-- The caller in main.py: `if actions and isinstance(actions, list)`;
-- a None or empty extraction is treated as conversational text.
inductive ResponseKind : Type where
  | actionable : ResponseKind
  | conversational : ResponseKind
deriving DecidableEq

def classify_response (text : String) : ResponseKind :=
  match extract_json_from_response text with
  | some (_ :: _) => ResponseKind.actionable
  | _ => ResponseKind.conversational

-- ## Process supervisor (process_manager.py / command_executor.py)

inductive StreamTag : Type where
  | stdout : StreamTag
  | stderr : StreamTag
deriving DecidableEq

-- One entry of the running_processes table.  `poll` is the exit status the
-- OS currently reports for the child (none while it is still running);
-- `queue` holds the (stream, chunk) events pushed by the reader thread and
-- not yet drained.
structure ProcData : Type where
  pid : Int
  command : String
  cid : String
  output_lines : List String
  start_time : Nat
  expecting_input : Bool
  completed : Bool
  exit_code : Option Int
  completion_time : Option Nat
  queue : List (StreamTag × String)
  poll : Option Int

-- running_processes: a Python dict keyed by pid, in insertion order.
abbrev PState := List (Int × ProcData)

def lookupP : PState → Int → Option ProcData
  | [], _ => none
  | (p, d) :: t, pid => if p == pid then some d else lookupP t pid

def setP : PState → Int → ProcData → PState
  | [], _, _ => []
  | (p, d) :: t, pid, d2 =>
    if p == pid then (p, d2) :: t else (p, d) :: setP t pid d2

def removeP (st : PState) (pid : Int) : PState := st.filter (fun p => !(p.1 == pid))

-- The fixed keyword set scanned over lowercased stdout lines.
def promptKeywords : List String :=
  ["? ", "y/n", "(y/n)", "select", "choose", "password", "enter", "continue"]

def promptHeuristic (line : String) : Bool :=
  promptKeywords.any (fun kw => subL kw.data (pyLowerStr line).data)

-- Python l[-10:].
def pyLastN (n : Nat) (l : List String) : List String := l.drop (l.length - n)

-- One queue event appended to the (lines, expectingInput) accumulator,
-- line by line as in the source loop.
def drainEvent (acc : List String × Bool) (ev : StreamTag × String) : List String × Bool :=
  match ev with
  | (StreamTag.stdout, chunk) =>
    (splitLinesPy chunk).foldl
      (fun a2 ln =>
        if ln.isEmpty then a2
        else (a2.1 ++ ["[STDOUT] " ++ ln], a2.2 || promptHeuristic ln))
      acc
  | (StreamTag.stderr, chunk) =>
    (splitLinesPy chunk).foldl
      (fun a2 ln =>
        if ln.isEmpty then a2 else (a2.1 ++ ["[STDERR] " ++ ln], a2.2))
      acc

-- update_specific_process_output on one record: poll the exit status,
-- pop every queued event, then trim the buffer to the last 10 lines.
def drainData (d : ProcData) : ProcData :=
  let d1 : ProcData :=
    match d.poll with
    | some s => { d with completed := true, exit_code := some s }
    | none => d
  let acc := d1.queue.foldl drainEvent (d1.output_lines, d1.expecting_input)
  { d1 with
    output_lines := pyLastN 10 acc.1
    expecting_input := acc.2
    queue := [] }

def update_specific_process_output (st : PState) (pid : Int) : PState :=
  match lookupP st pid with
  | none => st
  | some d => setP st pid (drainData d)

-- find_process_by_pid_or_cid.  The identifier is a Python value that is
-- either absent (None) or a string; `none` and `some ""` are both falsy.
def identFalsy : Option String → Bool
  | none => true
  | some s => s == ""

def find_process_by_pid_or_cid (st : PState) (ident : Option String) : Option ProcData :=
  if identFalsy ident then
    match st.filter (fun p => p.2.expecting_input) with
    | [w] => some w.2
    | _ => none
  else
    let s := ident.getD ""
    match
      (match pyToIntOpt s with
       | some k => lookupP st k
       | none => none) with
    | some d => some d
    | none =>
      match (st.find? (fun p => p.2.cid == s)).map (fun p => p.2) with
      | some d => some d
      | none =>
        match st with
        | [(_, d)] => if d.expecting_input then some d else none
        | _ => none

-- Cleanup pass of update_and_get_running_processes_info: for every pid
-- whose poll was non-running, remove the record once it has been completed
-- for more than 60 seconds, else stamp a missing completion time.
def completionTimeFalsy : Option Nat → Bool
  | none => true
  | some t => t == 0

def cleanupStep (now : Nat) (st : PState) (pid : Int) : PState :=
  match lookupP st pid with
  | none => st
  | some d =>
    if d.completed &&
        decide (60 < now - (match d.completion_time with
                            | some t => t
                            | none => now)) then
      removeP st pid
    else if completionTimeFalsy d.completion_time then
      setP st pid { d with completion_time := some now }
    else st

-- update_and_get_running_processes_info: drain every record (building one
-- report line per tracked pid), then run the cleanup pass over the pids
-- observed completed.  Returns (new table, pids present in the report).
def update_and_get_running_processes_info (st : PState) (now : Nat) : PState × List Int :=
  let st1 : PState := st.map (fun p => (p.1, drainData p.2))
  let completed_pids : List Int := (st1.filter (fun p => p.2.poll.isSome)).map (fun p => p.1)
  (completed_pids.foldl (cleanupStep now) st1, st1.map (fun p => p.1))

-- The record registered by handle_run_command for a background process.
def spawnRecord (pid : Int) (command cid : String) (now : Nat) : ProcData :=
  { pid := pid
    command := command
    cid := cid
    output_lines := []
    start_time := now
    expecting_input := false
    completed := false
    exit_code := none
    completion_time := none
    queue := []
    poll := none }

-- ## Command handlers (command_executor.py)

-- Single-quote character, used by the source's f-string diagnostics.
def sq : String := String.mk [Char.ofNat 39]

-- Zero test on a JSON number lexeme: no nonzero digit in the mantissa.
def lexZero (l : String) : Bool :=
  !((l.data.takeWhile (fun c => !(c == 'e' || c == 'E'))).any
      (fun c => 49 ≤ c.toNat && c.toNat ≤ 57))

-- Python truthiness of a JSON-decoded value.
def pyFalsy : JVal → Bool
  | JVal.jnull => true
  | JVal.jbool b => !b
  | JVal.jnum l => lexZero l
  | JVal.jstr s => s == ""
  | JVal.jarr l => l.isEmpty
  | JVal.jobj d => d.isEmpty

-- The routing decision of handle_run_command up to the point where a
-- process is actually executed (execution itself is an OS effect).
inductive RunRoute : Type where
  | errMissing : RunRoute
  | errNonString : RunRoute
  | changeDir : String → RunRoute
  | runs : String → RunRoute
deriving DecidableEq

def handle_run_command_route (args : Dict) : RunRoute :=
  match dictGet args "command_string" with
  | none => RunRoute.errMissing
  | some v =>
    if pyFalsy v then RunRoute.errMissing
    else
      match v with
      | JVal.jstr c =>
        if startsL "cd ".data (pyStrip c).data then RunRoute.changeDir (cdTarget c)
        else RunRoute.runs c
      | _ => RunRoute.errNonString

def cidDisp (cid : String) : String := if cid == "" then "N/A" else cid

def processListingLine (p : Int × ProcData) : String :=
  "PID " ++ toString p.1 ++
  (if p.2.cid == "" then "" else " (CID: " ++ p.2.cid ++ ")") ++
  (if p.2.expecting_input then " (WAITING FOR INPUT)" else "") ++
  ": " ++ p.2.command

def renderIdent : Option String → String
  | none => "None"
  | some s => s

def notFoundMsg (st : PState) (ident : Option String) : String :=
  if st.isEmpty then
    "Error: Process with PID/CID " ++ sq ++ renderIdent ident ++ sq ++
    " not found. No running processes available."
  else
    "Error: Process with PID/CID " ++ sq ++ renderIdent ident ++ sq ++
    " not found. Available processes:" ++
    "\n    - " ++ String.intercalate "\n    - " (st.map processListingLine)

-- handle_send_input_to_process: resolve the target, refuse a dead process,
-- clear expecting_input after the (modelled) stdin write, then drain.
def handle_send_input_to_process (st : PState) (ident : Option String)
    (input_data : Option String) : PState × String :=
  match input_data with
  | none =>
    (st, "Error: " ++ sq ++ "input_data" ++ sq ++ " is required for send_input_to_process.")
  | some _ =>
    let found : Option ProcData :=
      match find_process_by_pid_or_cid st ident with
      | some d => some d
      | none =>
        match st.filter (fun p => p.2.expecting_input) with
        | [w] => some w.2
        | _ => none
    match found with
    | none => (st, notFoundMsg st ident)
    | some d =>
      if d.poll.isSome then
        (st, "Error: Process PID " ++ toString d.pid ++ " (CID: " ++ d.cid ++
             ") has already terminated. Cannot send input.")
      else
        (setP st d.pid (drainData { d with expecting_input := false }),
         "Success: Input sent to process PID " ++ toString d.pid ++
         " (CID: " ++ cidDisp d.cid ++ ").")

-- ## Dispatch loop (main.py, per-turn action processing)

-- Best-effort rendering of a decoded value inside a diagnostic f-string
-- (only reached when the action name is not a string).
def jshowShallow : JVal → String
  | JVal.jnull => "None"
  | JVal.jbool true => "True"
  | JVal.jbool false => "False"
  | JVal.jnum l => l
  | JVal.jstr s => s
  | JVal.jarr _ => "[...]"
  | JVal.jobj _ => "\x7b...\x7d"

def unknownActionMsg (shown : String) : String :=
  "System Error: LLM requested unknown action " ++ sq ++ shown ++ sq ++ ". No action taken."

def handlerErrorMsg (name e : String) : String :=
  "System Error: Exception during execution of action " ++ sq ++ name ++ sq ++ ": " ++ e

-- One action processed by the loop body: registry lookup, confirmation
-- gate for destructive operations, handler invocation with exceptions
-- converted to a textual result.  `confirmInput` is the raw user reply.
def dispatchOne (handlers : String → Option (Dict → Except String String))
    (confirmInput : String) (aj : Dict) : String :=
  let nameVal := (dictGet aj "action").getD (JVal.jstr "unknown_action")
  let args : Dict :=
    match dictGet aj "args" with
    | some (JVal.jobj a) => a
    | _ => []
  match nameVal with
  | JVal.jstr name =>
    (match handlers name with
     | some h =>
       if (name == "delete_folder" || name == "delete_file") &&
           !(pyLowerStr confirmInput == "y") then
         "User cancelled action: " ++ name
       else
         (match h args with
          | Except.ok r => r
          | Except.error e => handlerErrorMsg name e)
     | none => unknownActionMsg name)
  | v => unknownActionMsg (jshowShallow v)

def dispatchActionsGo (handlers : String → Option (Dict → Except String String))
    (ui : Nat → String) : Nat → List Dict → List String
  | _, [] => []
  | i, a :: rest =>
    dispatchOne handlers (ui i) a :: dispatchActionsGo handlers ui (i + 1) rest

-- The per-turn loop over all extracted actions, collecting one textual
-- result per action; `ui i` is the confirmation reply for action i.
def dispatchActions (handlers : String → Option (Dict → Except String String))
    (ui : Nat → String) (actions : List Dict) : List String :=
  dispatchActionsGo handlers ui 0 actions

-- ## Helper lemmas

theorem dictGet_dictSet_self (d : Dict) (k : String) (v : JVal) :
    dictGet (dictSet d k v) k = some v := by
  induction d with
  | nil => simp [dictSet, dictGet]
  | cons p t ih =>
    by_cases h : p.1 = k
    · simp [dictSet, dictGet, h]
    · simp [dictSet, dictGet, h, ih]

theorem dictGet_dictSet_ne (d : Dict) (k k2 : String) (v : JVal) (h : k ≠ k2) :
    dictGet (dictSet d k v) k2 = dictGet d k2 := by
  induction d with
  | nil => simp [dictSet, dictGet, h]
  | cons p t ih =>
    by_cases hp : p.1 = k
    · simp [dictSet, dictGet, hp, h]
    · by_cases hp2 : p.1 = k2
      · simp [dictSet, dictGet, hp, hp2, Ne.symm h]
      · simp [dictSet, dictGet, hp, hp2, ih]

theorem lookupP_setP_self (st : PState) (p : Int) (d x : ProcData)
    (h : lookupP st p = some d) : lookupP (setP st p x) p = some x := by
  induction st with
  | nil => simp [lookupP] at h
  | cons q t ih =>
    by_cases hq : q.1 = p
    · simp [setP, lookupP, hq]
    · simp [lookupP, hq] at h
      simp [setP, lookupP, hq, ih h]

theorem lookupP_setP_ne (st : PState) (p p2 : Int) (x : ProcData) (h : p2 ≠ p) :
    lookupP (setP st p2 x) p = lookupP st p := by
  induction st with
  | nil => simp [setP, lookupP]
  | cons q t ih =>
    by_cases hq : q.1 = p2
    · simp [setP, lookupP, hq, h]
    · by_cases hq2 : q.1 = p
      · simp [setP, lookupP, hq, hq2, Ne.symm h]
      · simp [setP, lookupP, hq, hq2, ih]

theorem setP_of_lookupP_none (st : PState) (p : Int) (x : ProcData)
    (h : lookupP st p = none) : setP st p x = st := by
  induction st with
  | nil => simp [setP]
  | cons q t ih =>
    by_cases hq : q.1 = p
    · simp [lookupP, hq] at h
    · simp [lookupP, hq] at h
      simp [setP, hq, ih h]

theorem lookupP_removeP_self (st : PState) (p : Int) :
    lookupP (removeP st p) p = none := by
  induction st with
  | nil => simp [removeP, lookupP]
  | cons q t ih =>
    by_cases hq : q.1 = p
    · simpa [removeP, hq] using ih
    · simpa [removeP, lookupP, hq] using ih

theorem lookupP_removeP_ne (st : PState) (p p2 : Int) (h : p2 ≠ p) :
    lookupP (removeP st p2) p = lookupP st p := by
  induction st with
  | nil => simp [removeP, lookupP]
  | cons q t ih =>
    by_cases hq : q.1 = p2
    · simpa [removeP, lookupP, hq, h, Ne.symm h] using ih
    · by_cases hq2 : q.1 = p
      · simp [removeP, List.filter_cons, lookupP, hq, hq2, Ne.symm h]
      · simpa [removeP, List.filter_cons, lookupP, hq, hq2] using ih

theorem lookupP_map (st : PState) (p : Int) (f : ProcData → ProcData) :
    lookupP (st.map (fun q => (q.1, f q.2))) p = (lookupP st p).map f := by
  induction st with
  | nil => simp [lookupP]
  | cons q t ih =>
    by_cases hq : q.1 = p
    · simp [lookupP, hq]
    · simp [lookupP, hq, ih]

theorem mem_keys_of_lookupP (st : PState) (p : Int) (d : ProcData)
    (h : lookupP st p = some d) : p ∈ st.map (fun q => q.1) := by
  induction st with
  | nil => simp [lookupP] at h
  | cons q t ih =>
    by_cases hq : q.1 = p
    · simp [hq]
    · simp [lookupP, hq] at h
      simp [ih h]

-- ## C1: findByIdentifier resolution order

-- Two-process example state: only the second process is waiting for input.
def exC1d1 : ProcData := spawnRecord 1 "sleep 100" "a" 0
def exC1d2 : ProcData := { spawnRecord 2 "python quiz.py" "b" 0 with expecting_input := true }
def exC1st : PState := [(1, exC1d1), (2, exC1d2)]

/-- C1: counterexample.  The claim states that with no identifier the sole
process is returned only when exactly one process exists overall, and that
an unmatched identifier falls back to the unique process waiting for input.
On a two-process table whose second process is waiting for input, the code
does the opposite on both counts: with no identifier it returns the waiting
process although two processes exist, and with the unmatched identifier
"zzz" it returns no record although exactly one process is waiting. -/
theorem claim_C1_counterexample :
    find_process_by_pid_or_cid exC1st none = some exC1d2 ∧
    exC1st.length = 2 ∧
    find_process_by_pid_or_cid exC1st (some "zzz") = none ∧
    (exC1st.filter (fun p => p.2.expecting_input)).length = 1 :=
  ⟨rfl, rfl, rfl, rfl⟩

/-- C1 (amended): lookup resolves by exact pid match, else exact cid match,
else — when the table holds exactly one process overall and that process is
waiting for input — defaults to it; with no identifier (None or empty) it
defaults to the unique process waiting for input, however many processes
are tracked; in every other case no record is returned. -/
theorem claim_C1_amended :
    (∀ (st : PState) (s : String) (k : Int) (d : ProcData),
       pyToIntOpt s = some k → lookupP st k = some d →
       find_process_by_pid_or_cid st (some s) = some d) ∧
    (∀ (st : PState) (s : String) (pr : Int × ProcData),
       (s == "") = false →
       (match pyToIntOpt s with
        | some k => lookupP st k
        | none => none) = none →
       st.find? (fun p => p.2.cid == s) = some pr →
       find_process_by_pid_or_cid st (some s) = some pr.2) ∧
    (∀ (st : PState) (s : String) (p : Int) (d : ProcData),
       (s == "") = false →
       (match pyToIntOpt s with
        | some k => lookupP st k
        | none => none) = none →
       st.find? (fun q => q.2.cid == s) = none →
       st = [(p, d)] → d.expecting_input = true →
       find_process_by_pid_or_cid st (some s) = some d) ∧
    (∀ (st : PState) (s : String),
       (s == "") = false →
       (match pyToIntOpt s with
        | some k => lookupP st k
        | none => none) = none →
       st.find? (fun q => q.2.cid == s) = none →
       (match st with
        | [(_, d)] => d.expecting_input = false
        | _ => True) →
       find_process_by_pid_or_cid st (some s) = none) ∧
    (∀ (st : PState) (ident : Option String) (w : Int × ProcData),
       identFalsy ident = true →
       st.filter (fun p => p.2.expecting_input) = [w] →
       find_process_by_pid_or_cid st ident = some w.2) ∧
    (∀ (st : PState) (ident : Option String),
       identFalsy ident = true →
       ((st.filter (fun p => p.2.expecting_input)).length = 1 → False) →
       find_process_by_pid_or_cid st ident = none) := by
  refine ⟨?_, ?_, ?_, ?_, ?_, ?_⟩
  · intro st s k d hk hd
    have hs : (s == "") = false := by
      cases he : s == "" with
      | false => rfl
      | true =>
        have : s = "" := by simpa using he
        subst this
        simp [pyToIntOpt, pyStripChars] at hk
    simp [find_process_by_pid_or_cid, identFalsy, hs, hk, hd]
  · intro st s pr hs hpid hcid
    simp [find_process_by_pid_or_cid, identFalsy, hs, hpid, hcid]
  · intro st s p d hs hpid hcid hst hw
    subst hst
    simp [find_process_by_pid_or_cid, identFalsy, hs, hpid, hcid, hw]
  · intro st s hs hpid hcid hone
    simp only [find_process_by_pid_or_cid, identFalsy, hs, Bool.false_eq_true,
      if_false, Option.getD_some, hpid, hcid]
    match st, hone with
    | [], _ => rfl
    | [(p, d)], hone => simp [hone]
    | (p1, d1) :: (p2, d2) :: t, _ => rfl
  · intro st ident w hfal hfil
    simp [find_process_by_pid_or_cid, hfal, hfil]
  · intro st ident hfal hone
    simp only [find_process_by_pid_or_cid, hfal, if_true]
    rcases hfj : st.filter (fun p => p.2.expecting_input) with _ | ⟨w, _ | ⟨w2, t⟩⟩
    · rw [hfj]
    · exact absurd (by simp [hfj]) hone
    · rw [hfj]

/-- C1 amended, witness: the no-identifier default picks the unique waiting
process of the two-process example table. -/
theorem claim_C1_witness :
    find_process_by_pid_or_cid exC1st none = some exC1d2 :=
  claim_C1_amended.2.2.2.2.1 exC1st none (2, exC1d2) rfl rfl

-- ## C5 / C10: the shell-navigation rewrite

/-- C5: a run-command action whose command text begins with the
directory-change prefix "cd " is rewritten to the change_directory
operation with the stripped remainder as the path argument, both by the
normalizer before dispatch and again inside the run-command handler. -/
theorem claim_C5 :
    (∀ cmd : String,
       startsL "cd ".data (pyStrip cmd).data = true →
       ∃ o, normalize_action_object (JVal.jobj
           [("action", JVal.jstr "run_command"),
            ("args", JVal.jobj [("command_string", JVal.jstr cmd)])]) = some o ∧
         dictGet o "action" = some (JVal.jstr "change_directory") ∧
         dictGet o "args" = some (JVal.jobj [("path", JVal.jstr (cdTarget cmd))])) ∧
    (∀ (args : Dict) (cmd : String),
       dictGet args "command_string" = some (JVal.jstr cmd) →
       startsL "cd ".data (pyStrip cmd).data = true →
       handle_run_command_route args = RunRoute.changeDir (cdTarget cmd)) := by
  constructor
  · intro cmd h4
    have h4' : startsL ['c', 'd', ' '] (pyStrip cmd).data = true := h4
    have hnorm : normalize_action_object (JVal.jobj
        [("action", JVal.jstr "run_command"),
         ("args", JVal.jobj [("command_string", JVal.jstr cmd)])]) =
        some [("action", JVal.jstr "change_directory"),
              ("args", JVal.jobj [("path", JVal.jstr (cdTarget cmd))])] := by
      simp [normalize_action_object, dictGet, dictSet, dictHas, applyParamMap,
        parameter_mappings, action_map_lookup, h4']
    exact ⟨_, hnorm, rfl, rfl⟩
  · intro args cmd h1 h2
    have hne : (cmd == "") = false := by
      cases he : cmd == "" with
      | false => rfl
      | true =>
        have hc : cmd = "" := by simpa using he
        rw [hc] at h2
        exact absurd h2 (by decide)
    simp [handle_run_command_route, h1, pyFalsy, hne, h2]

/-- C5, witness: the run-command candidate with command text "cd foo"
is rewritten to change_directory with path "foo" in both places. -/
theorem claim_C5_witness :
    (∃ o, normalize_action_object (JVal.jobj
        [("action", JVal.jstr "run_command"),
         ("args", JVal.jobj [("command_string", JVal.jstr "cd foo")])]) = some o ∧
      dictGet o "action" = some (JVal.jstr "change_directory") ∧
      dictGet o "args" = some (JVal.jobj [("path", JVal.jstr "foo")])) ∧
    handle_run_command_route [("command_string", JVal.jstr "cd foo")] =
      RunRoute.changeDir "foo" :=
  ⟨claim_C5.1 "cd foo" rfl,
   claim_C5.2 [("command_string", JVal.jstr "cd foo")] "cd foo" rfl rfl⟩

/-- C10: the shell-navigation rewrite fires only for the literal operation
name "run_command" with the command under the literal key "command_string":
a synonym operation name (execute/exec/run/shell) is not rewritten even for
a "cd ..." command (the rewrite check precedes name canonicalization), a
command supplied only under a synonym argument key is not rewritten, and a
command text of exactly "cd" with no trailing space is never rewritten. -/
theorem claim_C10 :
    (∀ cmd name : String,
       (name = "execute" ∨ name = "exec" ∨ name = "run" ∨ name = "shell") →
       ∃ o, normalize_action_object (JVal.jobj
           [("action", JVal.jstr name),
            ("args", JVal.jobj [("command_string", JVal.jstr cmd)])]) = some o ∧
         dictGet o "action" = some (JVal.jstr "run_command")) ∧
    (∀ (argsD : Dict),
       dictGet argsD "command_string" = none →
       ∃ o, normalize_action_object (JVal.jobj
           [("action", JVal.jstr "run_command"), ("args", JVal.jobj argsD)]) = some o ∧
         dictGet o "action" = some (JVal.jstr "run_command")) ∧
    ((∃ o, normalize_action_object (JVal.jobj
         [("action", JVal.jstr "run_command"),
          ("args", JVal.jobj [("command_string", JVal.jstr "cd")])]) = some o ∧
        dictGet o "action" = some (JVal.jstr "run_command")) ∧
     (∀ (argsD : Dict) (p : String),
        dictGet argsD "command_string" = some (JVal.jstr "cd") →
        handle_run_command_route argsD ≠ RunRoute.changeDir p)) := by
  refine ⟨?_, ?_, ?_, ?_⟩
  · intro cmd name hname
    rcases hname with h | h | h | h <;> subst h <;> exact ⟨_, rfl, rfl⟩
  · intro argsD h3
    refine ⟨_, rfl, ?_⟩
    simp only [show dictGet [("action", JVal.jstr "run_command"),
        ("args", JVal.jobj argsD)] "args" = some (JVal.jobj argsD) from rfl]
    simp only [h3]
    rfl
  · exact ⟨_, rfl, rfl⟩
  · intro argsD p h3 hcontra
    simp [handle_run_command_route, h3, pyFalsy,
      show startsL ['c', 'd', ' '] (pyStrip "cd").data = false from rfl] at hcontra

/-- C10, witness: the synonym name "exec" with command text "cd foo" stays
run_command; a command only under the key "command", and the bare command
"cd", are likewise left on run_command. -/
theorem claim_C10_witness :
    (∃ o, normalize_action_object (JVal.jobj
        [("action", JVal.jstr "exec"),
         ("args", JVal.jobj [("command_string", JVal.jstr "cd foo")])]) = some o ∧
      dictGet o "action" = some (JVal.jstr "run_command")) ∧
    (∃ o, normalize_action_object (JVal.jobj
        [("action", JVal.jstr "run_command"),
         ("args", JVal.jobj [("command", JVal.jstr "cd foo")])]) = some o ∧
      dictGet o "action" = some (JVal.jstr "run_command")) ∧
    (∃ o, normalize_action_object (JVal.jobj
        [("action", JVal.jstr "run_command"),
         ("args", JVal.jobj [("command_string", JVal.jstr "cd")])]) = some o ∧
      dictGet o "action" = some (JVal.jstr "run_command")) :=
  ⟨claim_C10.1 "cd foo" "exec" (Or.inr (Or.inl rfl)),
   claim_C10.2.1 [("command", JVal.jstr "cd foo")] rfl,
   claim_C10.2.2.1⟩

-- ## C9: per-action fault isolation in the dispatch loop

theorem dispatchActionsGo_getElem (handlers : String → Option (Dict → Except String String))
    (ui : Nat → String) (actions : List Dict) :
    ∀ start i, (dispatchActionsGo handlers ui start actions)[i]? =
      (actions[i]?).map (fun a => dispatchOne handlers (ui (start + i)) a) := by
  induction actions with
  | nil => intro start i; simp [dispatchActionsGo]
  | cons a rest ih =>
    intro start i
    cases i with
    | zero => simp [dispatchActionsGo]
    | succ j =>
      simp only [dispatchActionsGo, List.getElem?_cons_succ]
      rw [ih (start + 1) j]
      have harith : start + 1 + j = start + (j + 1) := by omega
      rw [harith]

/-- C9: dispatch processes every action of the batch independently: the
results list has one entry per action, the entry at position i depends only
on action i (so no earlier failure aborts the batch), an unresolved
operation name yields the explicit unknown-action result and the loop
continues, and a handler failure is converted to a textual error result in
place, with the rest of the batch still executed. -/
theorem claim_C9 :
    (∀ handlers ui actions,
       (dispatchActions handlers ui actions).length = actions.length) ∧
    (∀ handlers ui actions i,
       (dispatchActions handlers ui actions)[i]? =
         (actions[i]?).map (fun a => dispatchOne handlers (ui i) a)) ∧
    (∀ handlers conf (aj : Dict) (name : String),
       dictGet aj "action" = some (JVal.jstr name) →
       handlers name = none →
       dispatchOne handlers conf aj = unknownActionMsg name) ∧
    (∀ handlers conf (aj : Dict) (name : String) h (args : Dict) (e : String),
       dictGet aj "action" = some (JVal.jstr name) →
       handlers name = some h →
       (name == "delete_folder" || name == "delete_file") = false →
       dictGet aj "args" = some (JVal.jobj args) →
       h args = Except.error e →
       dispatchOne handlers conf aj = handlerErrorMsg name e) := by
  refine ⟨?_, ?_, ?_, ?_⟩
  · intro handlers ui actions
    show (dispatchActionsGo handlers ui 0 actions).length = actions.length
    generalize 0 = start
    induction actions generalizing start with
    | nil => rfl
    | cons a rest ih => simp [dispatchActionsGo, ih]
  · intro handlers ui actions i
    have h := dispatchActionsGo_getElem handlers ui actions 0 i
    simpa using h
  · intro handlers conf aj name h1 h2
    simp [dispatchOne, h1, h2]
  · intro handlers conf aj name h args e h1 h2 h3 h4 h5
    simp [dispatchOne, h1, h2, h3, h4, h5]

/-- C9, witness: a three-action batch whose middle action has an unknown
name and whose last handler throws still yields three results in order. -/
theorem claim_C9_witness :
    (dispatchActions
        (fun n => if n == "ok_op" then
            some (fun _ => Except.ok "done")
          else if n == "boom_op" then
            some (fun _ => Except.error "kaput")
          else none)
        (fun _ => "y")
        [[("action", JVal.jstr "ok_op"), ("args", JVal.jobj [])],
         [("action", JVal.jstr "mystery"), ("args", JVal.jobj [])],
         [("action", JVal.jstr "boom_op"), ("args", JVal.jobj [])]]).length = 3 ∧
    dispatchOne
        (fun n => if n == "ok_op" then
            some (fun _ => Except.ok "done")
          else if n == "boom_op" then
            some (fun _ => Except.error "kaput")
          else none)
        "y" [("action", JVal.jstr "mystery"), ("args", JVal.jobj [])]
      = unknownActionMsg "mystery" ∧
    dispatchOne
        (fun n => if n == "ok_op" then
            some (fun _ => Except.ok "done")
          else if n == "boom_op" then
            some (fun _ => Except.error "kaput")
          else none)
        "y" [("action", JVal.jstr "boom_op"), ("args", JVal.jobj [])]
      = handlerErrorMsg "boom_op" "kaput" :=
  ⟨claim_C9.1 _ _ _,
   claim_C9.2.2.1 _ "y" _ "mystery" rfl rfl,
   claim_C9.2.2.2 _ "y" _ "boom_op" _ [] "kaput" rfl rfl rfl rfl rfl⟩

-- ## C6 / C7 groundwork: what one drain appends and detects

-- Tagged nonempty lines contributed by one queue event.
def eventLines : StreamTag × String → List String
  | (StreamTag.stdout, chunk) =>
    ((splitLinesPy chunk).filter (fun ln => !ln.isEmpty)).map (fun ln => "[STDOUT] " ++ ln)
  | (StreamTag.stderr, chunk) =>
    ((splitLinesPy chunk).filter (fun ln => !ln.isEmpty)).map (fun ln => "[STDERR] " ++ ln)

def queueLines : List (StreamTag × String) → List String
  | [] => []
  | ev :: q => eventLines ev ++ queueLines q

-- Whether one event carries a stdout line matching the prompt heuristic.
def eventPrompt : StreamTag × String → Bool
  | (StreamTag.stdout, chunk) =>
    (splitLinesPy chunk).any (fun ln => !ln.isEmpty && promptHeuristic ln)
  | (StreamTag.stderr, _) => false

def queuePrompt (q : List (StreamTag × String)) : Bool := q.any eventPrompt

theorem foldl_stdout_lines (lines : List String) :
    ∀ (acc : List String) (b : Bool),
    lines.foldl
        (fun a2 ln =>
          if ln.isEmpty then a2
          else (a2.1 ++ ["[STDOUT] " ++ ln], a2.2 || promptHeuristic ln))
        (acc, b)
      = (acc ++ ((lines.filter (fun ln => !ln.isEmpty)).map (fun ln => "[STDOUT] " ++ ln)),
         b || lines.any (fun ln => !ln.isEmpty && promptHeuristic ln)) := by
  induction lines with
  | nil => intro acc b; simp
  | cons ln rest ih =>
    intro acc b
    by_cases he : ln.isEmpty
    · simp [he, ih acc b]
    · simp only [List.foldl_cons, he, if_false, List.filter_cons, List.any_cons,
        Bool.not_false, Bool.true_and, ih]
      simp [he, List.append_assoc, Bool.or_assoc]

theorem foldl_stderr_lines (lines : List String) :
    ∀ (acc : List String) (b : Bool),
    lines.foldl
        (fun a2 ln =>
          if ln.isEmpty then a2 else (a2.1 ++ ["[STDERR] " ++ ln], a2.2))
        (acc, b)
      = (acc ++ ((lines.filter (fun ln => !ln.isEmpty)).map (fun ln => "[STDERR] " ++ ln)),
         b) := by
  induction lines with
  | nil => intro acc b; simp
  | cons ln rest ih =>
    intro acc b
    by_cases he : ln.isEmpty
    · simp [he, ih acc b]
    · simp [he, ih, List.append_assoc]

theorem drainEvent_eq (acc : List String) (b : Bool) (ev : StreamTag × String) :
    drainEvent (acc, b) ev = (acc ++ eventLines ev, b || eventPrompt ev) := by
  rcases ev with ⟨tag, chunk⟩
  cases tag
  · simpa [drainEvent, eventLines, eventPrompt] using
      foldl_stdout_lines (splitLinesPy chunk) acc b
  · simpa [drainEvent, eventLines, eventPrompt] using
      foldl_stderr_lines (splitLinesPy chunk) acc b

theorem foldl_drainEvent (q : List (StreamTag × String)) :
    ∀ (acc : List String) (b : Bool),
    q.foldl drainEvent (acc, b) = (acc ++ queueLines q, b || queuePrompt q) := by
  induction q with
  | nil => intro acc b; simp [queueLines, queuePrompt]
  | cons ev rest ih =>
    intro acc b
    simp only [List.foldl_cons, drainEvent_eq, ih, queueLines, queuePrompt, List.any_cons]
    simp [List.append_assoc, Bool.or_assoc]

theorem drainData_output_lines (d : ProcData) :
    (drainData d).output_lines = pyLastN 10 (d.output_lines ++ queueLines d.queue) := by
  cases hp : d.poll <;> simp [drainData, hp, foldl_drainEvent]

theorem drainData_expecting (d : ProcData) :
    (drainData d).expecting_input = (d.expecting_input || queuePrompt d.queue) := by
  cases hp : d.poll <;> simp [drainData, hp, foldl_drainEvent]

theorem drainData_fields (d : ProcData) :
    (drainData d).queue = [] ∧
    (drainData d).completion_time = d.completion_time ∧
    (drainData d).poll = d.poll ∧
    (drainData d).pid = d.pid ∧
    (drainData d).cid = d.cid := by
  cases hp : d.poll <;> simp [drainData, hp]

theorem pyLastN_length_le (n : Nat) (l : List String) : (pyLastN n l).length ≤ n := by
  simp only [pyLastN, List.length_drop]
  omega

theorem pyLastN_eq_rev_take (n : Nat) (l : List String) :
    pyLastN n l = (l.reverse.take n).reverse := by
  have h := List.rtake_eq_reverse_take_reverse (l := l) (n := n)
  simpa [List.rtake, pyLastN] using h

theorem take_append_take (n : Nat) (x y : List String) :
    (x ++ y.take n).take n = (x ++ y).take n := by
  rw [List.take_append_eq_append_take, List.take_append_eq_append_take, List.take_take]
  have : min (n - x.length) n = n - x.length := Nat.min_eq_left (Nat.sub_le n x.length)
  rw [this]

theorem pyLastN_pyLastN_append (n : Nat) (a b : List String) :
    pyLastN n (pyLastN n a ++ b) = pyLastN n (a ++ b) := by
  rw [pyLastN_eq_rev_take, pyLastN_eq_rev_take, pyLastN_eq_rev_take]
  rw [List.reverse_append, List.reverse_reverse, List.reverse_append]
  rw [take_append_take]

/-- C6: after every drain the output buffer holds at most 10 lines; the
buffer is exactly the most recent 10 of all lines accumulated so far
(oldest evicted first) whenever more than 10 have accumulated, and this
persists across consecutive drains. -/
theorem claim_C6 :
    (∀ d : ProcData,
       (drainData d).output_lines = pyLastN 10 (d.output_lines ++ queueLines d.queue)) ∧
    (∀ d : ProcData, (drainData d).output_lines.length ≤ 10) ∧
    (∀ d : ProcData,
       10 < (d.output_lines ++ queueLines d.queue).length →
       (drainData d).output_lines.length = 10 ∧
       (drainData d).output_lines =
         (d.output_lines ++ queueLines d.queue).drop
           ((d.output_lines ++ queueLines d.queue).length - 10)) ∧
    (∀ (d : ProcData) (q2 : List (StreamTag × String)),
       (drainData { drainData d with queue := q2 }).output_lines =
         pyLastN 10 (d.output_lines ++ queueLines d.queue ++ queueLines q2)) := by
  refine ⟨drainData_output_lines, ?_, ?_, ?_⟩
  · intro d
    rw [drainData_output_lines]
    exact pyLastN_length_le 10 _
  · intro d hlen
    constructor
    · rw [drainData_output_lines]
      simp only [pyLastN, List.length_drop]
      omega
    · rw [drainData_output_lines]
      rfl
  · intro d q2
    have h1 : (drainData { drainData d with queue := q2 }).output_lines =
        pyLastN 10 ((drainData d).output_lines ++ queueLines q2) := by
      have := drainData_output_lines { drainData d with queue := q2 }
      simpa using this
    rw [h1, drainData_output_lines, pyLastN_pyLastN_append]

/-- C6, witness: a record with 8 buffered lines receiving 7 more stdout
lines across a drain ends with exactly the most recent 10 lines. -/
theorem claim_C6_witness :
    10 <
      ((List.range 8).map (fun i => "[STDOUT] line" ++ toString i) ++
        queueLines [(StreamTag.stdout, "a1\na2\na3\na4\na5\na6\na7\n")]).length ∧
    (drainData
        { pid := 7, command := "seq 15", cid := "", start_time := 0,
          output_lines := (List.range 8).map (fun i => "[STDOUT] line" ++ toString i),
          expecting_input := false, completed := false, exit_code := none,
          completion_time := none,
          queue := [(StreamTag.stdout, "a1\na2\na3\na4\na5\na6\na7\n")],
          poll := none }).output_lines.length = 10 := by
  refine ⟨by decide, ?_⟩
  exact (claim_C6.2.2.1
    { pid := 7, command := "seq 15", cid := "", start_time := 0,
      output_lines := (List.range 8).map (fun i => "[STDOUT] line" ++ toString i),
      expecting_input := false, completed := false, exit_code := none,
      completion_time := none,
      queue := [(StreamTag.stdout, "a1\na2\na3\na4\na5\na6\na7\n")],
      poll := none } (by decide)).1

-- ## Cleanup-pass lemmas (shared by C7 and C8)

-- The removal condition of the cleanup pass, as written in the source.
def removalCond (now : Nat) (d : ProcData) : Bool :=
  d.completed && decide (60 < now - (match d.completion_time with
                                     | some t => t
                                     | none => now))

theorem cleanupStep_eq (now : Nat) (st : PState) (pid : Int) :
    cleanupStep now st pid =
      match lookupP st pid with
      | none => st
      | some d =>
        if removalCond now d then removeP st pid
        else if completionTimeFalsy d.completion_time then
          setP st pid { d with completion_time := some now }
        else st := rfl

theorem lookupP_cleanupStep_ne (now : Nat) (st : PState) (p pid : Int) (h : p ≠ pid) :
    lookupP (cleanupStep now st p) pid = lookupP st pid := by
  rw [cleanupStep_eq]
  cases hl : lookupP st p with
  | none => rfl
  | some d =>
    by_cases hc : removalCond now d
    · simp [hc, lookupP_removeP_ne st pid p h]
    · by_cases hf : completionTimeFalsy d.completion_time
      · simp [hc, hf, lookupP_setP_ne st pid p _ h]
      · simp [hc, hf]

theorem lookupP_cleanupStep_none (now : Nat) (st : PState) (p pid : Int)
    (h : lookupP st pid = none) : lookupP (cleanupStep now st p) pid = none := by
  by_cases hpp : p = pid
  · subst hpp
    rw [cleanupStep_eq, h]
    exact h
  · rw [lookupP_cleanupStep_ne now st p pid hpp, h]

theorem cleanupFold_none (now : Nat) (pids : List Int) :
    ∀ (st : PState) (pid : Int), lookupP st pid = none →
    lookupP (pids.foldl (cleanupStep now) st) pid = none := by
  induction pids with
  | nil => intro st pid h; simpa using h
  | cons p ps ih =>
    intro st pid h
    simp only [List.foldl_cons]
    exact ih _ pid (lookupP_cleanupStep_none now st p pid h)

theorem removalCond_stamped (now : Nat) (d : ProcData) :
    removalCond now { d with completion_time := some now } = false := by
  simp [removalCond, Nat.sub_self]

-- A record the removal condition rejects survives the whole cleanup pass
-- (possibly with a freshly stamped completion time), flag and buffer intact.
theorem cleanupFold_keeps (now : Nat) (pids : List Int) :
    ∀ (st : PState) (pid : Int) (d : ProcData),
    lookupP st pid = some d → removalCond now d = false →
    ∃ d2, lookupP (pids.foldl (cleanupStep now) st) pid = some d2 ∧
      removalCond now d2 = false ∧
      d2.expecting_input = d.expecting_input ∧
      d2.output_lines = d.output_lines ∧
      d2.poll = d.poll := by
  induction pids with
  | nil => intro st pid d h hc; exact ⟨d, by simpa using h, hc, rfl, rfl, rfl⟩
  | cons p ps ih =>
    intro st pid d h hc
    simp only [List.foldl_cons]
    by_cases hpp : p = pid
    · subst hpp
      rw [cleanupStep_eq, h]
      simp only [hc, Bool.false_eq_true, if_false]
      by_cases hf : completionTimeFalsy d.completion_time
      · simp only [hf, if_true]
        have hl2 := lookupP_setP_self st p d { d with completion_time := some now } h
        obtain ⟨d2, h2, hc2, he2, ho2, hp2⟩ :=
          ih _ p { d with completion_time := some now } hl2 (removalCond_stamped now d)
        exact ⟨d2, h2, hc2, he2, ho2, hp2⟩
      · simp only [hf, if_false]
        exact ih _ p d h hc
    · have hl2 : lookupP (cleanupStep now st p) pid = some d := by
        rw [lookupP_cleanupStep_ne now st p pid hpp, h]
      exact ih _ pid d hl2 hc

-- Survival of the cleanup pass never changes the expecting-input flag.
theorem cleanupFold_flag (now : Nat) (pids : List Int) :
    ∀ (st : PState) (pid : Int) (d d2 : ProcData),
    lookupP st pid = some d →
    lookupP (pids.foldl (cleanupStep now) st) pid = some d2 →
    d2.expecting_input = d.expecting_input := by
  induction pids with
  | nil =>
    intro st pid d d2 h h2
    simp only [List.foldl_nil] at h2
    rw [h] at h2
    cases h2
    rfl
  | cons p ps ih =>
    intro st pid d d2 h h2
    simp only [List.foldl_cons] at h2
    by_cases hpp : p = pid
    · subst hpp
      simp only [cleanupStep_eq, h] at h2
      by_cases hc : removalCond now d = true
      · rw [if_pos hc] at h2
        have := cleanupFold_none now ps (removeP st p) p (lookupP_removeP_self st p)
        rw [this] at h2
        cases h2
      · rw [if_neg hc] at h2
        by_cases hf : completionTimeFalsy d.completion_time = true
        · rw [if_pos hf] at h2
          have hl2 := lookupP_setP_self st p d { d with completion_time := some now } h
          exact ih _ p { d with completion_time := some now } d2 hl2 h2
        · rw [if_neg hf] at h2
          exact ih _ p d d2 h h2
    · have hl2 : lookupP (cleanupStep now st p) pid = some d := by
        rw [lookupP_cleanupStep_ne now st p pid hpp, h]
      exact ih _ pid d d2 hl2 h2

-- Removal by the cleanup pass happens only when the removal condition
-- held for the record (as first seen by the pass).
theorem cleanupFold_removed (now : Nat) (pids : List Int) (st : PState)
    (pid : Int) (d : ProcData) (h : lookupP st pid = some d)
    (h2 : lookupP (pids.foldl (cleanupStep now) st) pid = none) :
    removalCond now d = true := by
  by_cases hc : removalCond now d
  · exact hc
  · obtain ⟨d2, hl2, _⟩ := cleanupFold_keeps now pids st pid d h (by simpa using hc)
    rw [hl2] at h2
    cases h2

-- ## C7: who sets and who clears expectingInput

/-- C7: the expecting-input flag is set to true only by the drain
heuristic (after a drain it equals its old value OR-ed with the prompt
scan over the newly drained stdout lines, so drain never clears it and
sets it exactly when a keyword line arrived), spawn initializes it to
false, a refresh pass never turns it from true to false, and a successful
sendInput clears it (the post-drain value reflects only freshly queued
prompt lines); sendInput failure paths leave the table untouched. -/
theorem claim_C7 :
    (∀ d : ProcData,
       (drainData d).expecting_input = (d.expecting_input || queuePrompt d.queue)) ∧
    (∀ (pid : Int) (c cid : String) (now : Nat),
       (spawnRecord pid c cid now).expecting_input = false) ∧
    (∀ (st : PState) (now : Nat) (pid : Int) (d d2 : ProcData),
       lookupP st pid = some d →
       lookupP (update_and_get_running_processes_info st now).1 pid = some d2 →
       d.expecting_input = true → d2.expecting_input = true) ∧
    (∀ (st : PState) (ident : Option String) (inp : String) (d : ProcData),
       find_process_by_pid_or_cid st ident = some d →
       lookupP st d.pid = some d →
       d.poll = none →
       lookupP (handle_send_input_to_process st ident (some inp)).1 d.pid =
         some (drainData { d with expecting_input := false }) ∧
       (drainData { d with expecting_input := false }).expecting_input =
         queuePrompt d.queue) ∧
    (∀ (st : PState) (ident : Option String),
       (handle_send_input_to_process st ident none).1 = st) ∧
    (∀ (st : PState) (ident : Option String) (inp : String),
       find_process_by_pid_or_cid st ident = none →
       st.filter (fun p => p.2.expecting_input) = [] →
       (handle_send_input_to_process st ident (some inp)).1 = st) := by
  refine ⟨?_, ?_, ?_, ?_, ?_, ?_⟩
  · exact drainData_expecting
  · intro pid c cid now; rfl
  · intro st now pid d d2 h1 h2 hexp
    simp only [update_and_get_running_processes_info] at h2
    have hst1 : lookupP (st.map (fun p => (p.1, drainData p.2))) pid =
        some (drainData d) := by
      rw [lookupP_map, h1]
      rfl
    have hflag := cleanupFold_flag now _ _ pid (drainData d) d2 hst1 h2
    rw [hflag, drainData_expecting, hexp]
    rfl
  · intro st ident inp d hfind hlook hpoll
    constructor
    · simp only [handle_send_input_to_process, hfind, hpoll, Option.isSome_none,
        Bool.false_eq_true, if_false]
      exact lookupP_setP_self st d.pid d _ hlook
    · rw [drainData_expecting]
      rfl
  · intro st ident; rfl
  · intro st ident inp hfind hwait
    simp [handle_send_input_to_process, hfind, hwait]

-- A concrete waiting-state example for the C7 witness.
def exC7prompt : ProcData :=
  { spawnRecord 3 "apt upgrade" "u" 5 with
    queue := [(StreamTag.stdout, "Continue? (y/n)")] }

def exC7waiting : ProcData :=
  { spawnRecord 3 "apt upgrade" "u" 5 with expecting_input := true }

/-- C7, witness: draining a stdout line "Continue? (y/n)" turns the flag
on, and a successful sendInput to the waiting process turns it off. -/
theorem claim_C7_witness :
    (drainData exC7prompt).expecting_input = true ∧
    lookupP (handle_send_input_to_process [(3, exC7waiting)] (some "3") (some "y")).1 3 =
      some (drainData { exC7waiting with expecting_input := false }) ∧
    (drainData { exC7waiting with expecting_input := false }).expecting_input = false := by
  refine ⟨?_, ?_, ?_⟩
  · rw [claim_C7.1 exC7prompt]
    decide
  · exact (claim_C7.2.2.2.1 [(3, exC7waiting)] (some "3") "y" exC7waiting rfl rfl rfl).1
  · rw [(claim_C7.2.2.2.1 [(3, exC7waiting)] (some "3") "y" exC7waiting rfl rfl rfl).2]
    decide

-- ## C8: 60-second grace period for completed records

theorem cleanupFold_not_mem (now : Nat) (pids : List Int) :
    ∀ (st : PState) (pid : Int), pid ∉ pids →
    lookupP (pids.foldl (cleanupStep now) st) pid = lookupP st pid := by
  induction pids with
  | nil => intro st pid _; rfl
  | cons p ps ih =>
    intro st pid hmem
    have hp : p ≠ pid := fun h => hmem (by simp [h])
    have hps : pid ∉ ps := fun h => hmem (by simp [h])
    simp only [List.foldl_cons]
    rw [ih _ pid hps, lookupP_cleanupStep_ne now st p pid hp]

theorem lookupP_eq_of_mem (st : PState) (pid : Int) (e : ProcData)
    (hnd : (st.map (fun q => q.1)).Nodup) (hm : (pid, e) ∈ st) :
    lookupP st pid = some e := by
  induction st with
  | nil => cases hm
  | cons q t ih =>
    have hnd' : (q.1 :: t.map (fun q => q.1)).Nodup := by
      rw [List.map_cons] at hnd
      exact hnd
    rcases List.mem_cons.mp hm with hq | ht
    · rw [← hq]
      simp [lookupP]
    · by_cases hq1 : q.1 = pid
      · exfalso
        apply (List.nodup_cons.mp hnd').1
        rw [hq1]
        exact List.mem_map.mpr ⟨(pid, e), ht, rfl⟩
      · show (if (q.1 == pid) = true then some q.2 else lookupP t pid) = some e
        rw [if_neg (by simpa using hq1)]
        exact ih (List.nodup_cons.mp hnd').2 ht

/-- C8: a record whose recorded completion time is at most 60 seconds in
the past survives a refresh pass and appears in its report, and a refresh
pass removes a record only when the record had a recorded completion time
more than 60 seconds old and its process had exited (poll non-running). -/
theorem claim_C8 :
    (∀ (st : PState) (now : Nat) (pid : Int) (d : ProcData) (t : Nat),
       lookupP st pid = some d → d.completion_time = some t → now ≤ t + 60 →
       (∃ d2, lookupP (update_and_get_running_processes_info st now).1 pid = some d2) ∧
       pid ∈ (update_and_get_running_processes_info st now).2) ∧
    (∀ (st : PState) (now : Nat) (pid : Int) (d : ProcData),
       (st.map (fun q => q.1)).Nodup →
       lookupP st pid = some d →
       lookupP (update_and_get_running_processes_info st now).1 pid = none →
       ∃ t, d.completion_time = some t ∧ 60 + t < now ∧ d.poll.isSome = true) := by
  constructor
  · intro st now pid d t h1 hct hle
    have hst1 : lookupP (st.map (fun p => (p.1, drainData p.2))) pid =
        some (drainData d) := by
      rw [lookupP_map, h1]
      rfl
    have hcond : removalCond now (drainData d) = false := by
      have hctd : (drainData d).completion_time = some t := by
        rw [(drainData_fields d).2.1, hct]
      simp only [removalCond, hctd]
      have : ¬(60 < now - t) := by omega
      simp [this]
    constructor
    · obtain ⟨d2, h2, _⟩ := cleanupFold_keeps now _ _ pid (drainData d) hst1 hcond
      exact ⟨d2, by simpa [update_and_get_running_processes_info] using h2⟩
    · simp only [update_and_get_running_processes_info]
      exact mem_keys_of_lookupP _ pid (drainData d) hst1
  · intro st now pid d hnd h1 h2
    simp only [update_and_get_running_processes_info] at h2
    have hst1 : lookupP (st.map (fun p => (p.1, drainData p.2))) pid =
        some (drainData d) := by
      rw [lookupP_map, h1]
      rfl
    -- the cleanup pass ran over pid, so pid was observed completed
    have hmem : pid ∈ ((st.map (fun p => (p.1, drainData p.2))).filter
        (fun p => p.2.poll.isSome)).map (fun p => p.1) := by
      by_contra hno
      rw [cleanupFold_not_mem now _ _ pid hno, hst1] at h2
      cases h2
    have hpoll : d.poll.isSome = true := by
      obtain ⟨q, hqf, hq1⟩ := List.mem_map.mp hmem
      have hqmem := (List.mem_filter.mp hqf).1
      have hqpoll : q.2.poll.isSome = true := by
        simpa using (List.mem_filter.mp hqf).2
      have hnd1 : ((st.map (fun p => (p.1, drainData p.2))).map (fun q => q.1)).Nodup := by
        simpa [List.map_map, Function.comp] using hnd
      have hlq : lookupP (st.map (fun p => (p.1, drainData p.2))) pid = some q.2 := by
        apply lookupP_eq_of_mem _ pid q.2 hnd1
        rw [← hq1]
        exact hqmem
      have hq2 : q.2 = drainData d := Option.some.inj (hlq.symm.trans hst1)
      rw [hq2, (drainData_fields d).2.2.1] at hqpoll
      exact hqpoll
    have hcond := cleanupFold_removed now _ _ pid (drainData d) hst1 h2
    simp only [removalCond, Bool.and_eq_true, decide_eq_true_eq] at hcond
    cases hctd : (drainData d).completion_time with
    | none =>
      simp only [hctd] at hcond
      omega
    | some t =>
      simp only [hctd] at hcond
      refine ⟨t, ?_, by omega, hpoll⟩
      rw [← (drainData_fields d).2.1, hctd]

-- Concrete states for the C8 witness: a process that completed with exit
-- code 0 at time 100, examined 30 and then 200 seconds later.
def exC8done : ProcData :=
  { spawnRecord 9 "make build" "m" 90 with
    poll := some 0, completed := true, completion_time := some 100 }

/-- C8, witness: the completed record is still tracked and reported by a
refresh at time 130 (≤ 60s past completion), and a refresh at time 200
that no longer tracks it implies its completion time was over 60s old. -/
theorem claim_C8_witness :
    ((∃ d2, lookupP (update_and_get_running_processes_info [(9, exC8done)] 130).1 9 = some d2) ∧
     9 ∈ (update_and_get_running_processes_info [(9, exC8done)] 130).2) ∧
    (∃ t, exC8done.completion_time = some t ∧ 60 + t < 200 ∧ exC8done.poll.isSome = true) := by
  constructor
  · exact claim_C8.1 [(9, exC8done)] 130 9 exC8done 100 rfl rfl (by decide)
  · exact claim_C8.2 [(9, exC8done)] 200 9 exC8done (by decide) rfl rfl

-- ## C2 / C3 / C4: extraction robustness

-- A dict entry carrying a string "action" field (the well-formedness the
-- normalizer requires before it accepts an entry).
def hasStrAction : JVal → Bool
  | JVal.jobj d =>
    (match dictGet d "action" with
     | some (JVal.jstr _) => true
     | _ => false)
  | _ => false

theorem normalize_some_of_hasStrAction (v : JVal) (h : hasStrAction v = true) :
    ∃ o, normalize_action_object v = some o := by
  cases v with
  | jobj d =>
    simp only [hasStrAction] at h
    have hget : ∃ a, dictGet d "action" = some (JVal.jstr a) := by
      cases hg : dictGet d "action" with
      | none => simp [hg] at h
      | some val =>
        cases val with
        | jstr a => exact ⟨a, rfl⟩
        | jnull => simp [hg] at h
        | jbool b => simp [hg] at h
        | jnum l => simp [hg] at h
        | jarr l => simp [hg] at h
        | jobj o => simp [hg] at h
    obtain ⟨a, hget⟩ := hget
    simp only [normalize_action_object, hget]
    exact ⟨_, rfl⟩
  | jnull => cases h
  | jbool b => cases h
  | jnum l => cases h
  | jstr s => cases h
  | jarr l => cases h

theorem normalize_none_of_not_hasStrAction (v : JVal) (h : hasStrAction v = false) :
    normalize_action_object v = none := by
  cases v with
  | jobj d =>
    simp only [hasStrAction] at h
    cases hg : dictGet d "action" with
    | none => simp only [normalize_action_object, hg]
    | some val =>
      cases val with
      | jstr a => simp [hg] at h
      | jnull => simp only [normalize_action_object, hg]
      | jbool b => simp only [normalize_action_object, hg]
      | jnum l => simp only [normalize_action_object, hg]
      | jarr l => simp only [normalize_action_object, hg]
      | jobj o => simp only [normalize_action_object, hg]
  | jnull => rfl
  | jbool b => rfl
  | jnum l => rfl
  | jstr s => rfl
  | jarr l => rfl

theorem normalizeActions_cons_some (v : JVal) (o : Dict) (items : List JVal)
    (h : normalize_action_object v = some o) :
    normalizeActions (v :: items) = o :: normalizeActions items := by
  cases v with
  | jobj d => simp [normalizeActions, List.filterMap_cons, h]
  | jnull => cases h
  | jbool b => cases h
  | jnum l => cases h
  | jstr s => cases h
  | jarr l => cases h

theorem normalizeActions_cons_none (v : JVal) (items : List JVal)
    (h : hasStrAction v = false) :
    normalizeActions (v :: items) = normalizeActions items := by
  have hn := normalize_none_of_not_hasStrAction v h
  cases v <;> simp [normalizeActions, List.filterMap_cons, hn]

/-- C3: a parsed array of N well-formed action objects yields exactly N
normalized actions in order; a non-dict entry or an entry without a string
action name is dropped silently while the remaining entries are still
extracted; and both the raw-array branch and the fenced branch of the
extractor return exactly the normalization of the parsed array. -/
theorem claim_C3 :
    (∀ items : List JVal,
       (∀ v ∈ items, hasStrAction v = true) →
       (normalizeActions items).length = items.length) ∧
    (∀ (v : JVal) (items : List JVal),
       hasStrAction v = false →
       normalizeActions (v :: items) = normalizeActions items) ∧
    (∀ (v : JVal) (o : Dict) (items : List JVal),
       normalize_action_object v = some o →
       normalizeActions (v :: items) = o :: normalizeActions items) ∧
    (∀ (text : String) (suf seg : List Char) (items : List JVal),
       findArrAction text.data = some suf →
       bracketSegment suf = some seg →
       jparse (String.mk seg) = some (JVal.jarr items) →
       extract_json_from_response text = some (normalizeActions items)) ∧
    (∀ (text : String) (js : List Char) (items : List JVal),
       rawArrayBranch text.data = none →
       findFenced text.data = some js →
       headIsCh '[' (pyStripChars js) = true →
       jparse (String.mk js) = some (JVal.jarr items) →
       extract_json_from_response text = some (normalizeActions items)) := by
  refine ⟨?_, normalizeActions_cons_none, normalizeActions_cons_some, ?_, ?_⟩
  · intro items hwf
    induction items with
    | nil => rfl
    | cons v rest ih =>
      obtain ⟨o, ho⟩ := normalize_some_of_hasStrAction v (hwf v (by simp))
      rw [normalizeActions_cons_some v o rest ho]
      simp only [List.length_cons]
      rw [ih (fun w hw => hwf w (by simp [hw]))]
  · intro text suf seg items h1 h2 h3
    have hraw : rawArrayBranch text.data = some (normalizeActions items) := by
      simp only [rawArrayBranch, h1, h2, h3]
    simp only [extract_json_from_response, hraw]
  · intro text js items h1 h2 h3 h4
    simp only [extract_json_from_response, h1, h2, fencedProcess, h3, if_true, h4]

-- Fenced example for the C3 witness: the first entry lists "args" before
-- "action" (so the raw-array regex does not fire), the second entry is a
-- bare number, the third is well-formed.
def exC3text : String :=
  "```json\n[\x7b\"args\": \x7b\x7d, \"action\": \"ls\"\x7d, 7, \x7b\"action\": \"cat\", \"args\": \x7b\"file\": \"a\"\x7d\x7d]\n```"

def exC3items : List JVal :=
  [JVal.jobj [("args", JVal.jobj []), ("action", JVal.jstr "ls")],
   JVal.jnum "7",
   JVal.jobj [("action", JVal.jstr "cat"), ("args", JVal.jobj [("file", JVal.jstr "a")])]]

/-- C3, witness: the fenced three-entry array extracts to exactly the two
normalizations of its well-formed entries, in order, with the non-dict
entry dropped; a fully well-formed list normalizes one-for-one. -/
theorem claim_C3_witness :
    extract_json_from_response exC3text = some (normalizeActions exC3items) ∧
    (normalizeActions exC3items).length = 2 ∧
    (normalizeActions
        [JVal.jobj [("action", JVal.jstr "ls")],
         JVal.jobj [("action", JVal.jstr "pwd")]]).length = 2 := by
  refine ⟨?_, rfl, ?_⟩
  · exact claim_C3.2.2.2.2 exC3text _ exC3items rfl rfl rfl rfl
  · exact claim_C3.1 _ (by decide)

theorem bracketScanGo_no_brackets (body : List Char) :
    ∀ (tail acc : List Char),
    body.all (fun c => !(c == '[' || c == ']')) = true →
    bracketScanGo (body ++ ']' :: tail) 1 acc = some (acc.reverse ++ (body ++ [']'])) := by
  induction body with
  | nil => intro tail acc _; simp [bracketScanGo]
  | cons c rest ih =>
    intro tail acc hall
    simp only [List.all_cons, Bool.and_eq_true] at hall
    obtain ⟨hcb, hrest⟩ := hall
    have hc : (c == '[' || c == ']') = false := by
      cases h0 : (c == '[' || c == ']')
      · rfl
      · rw [h0] at hcb
        exact absurd hcb (by decide)
    have hc1 : (c == '[') = false := by
      cases h1 : c == '[' <;> simp [h1] at hc ⊢
    have hc2 : (c == ']') = false := by
      cases h2 : c == ']' <;> simp [h2] at hc ⊢
    simp only [List.cons_append, bracketScanGo, hc1, hc2, Bool.false_eq_true, if_false,
      List.append_eq]
    rw [if_neg (by decide)]
    rw [ih tail (c :: acc) hrest]
    simp

/-- C4 (amended): the boundary scan is a plain square-bracket counter, so
it finds the matching closing bracket whenever the array body contains no
square-bracket characters (nested braces and escaped quotes included), for
any trailing text; when a bracket character does occur inside a string
value the scan mislocates the boundary, and extraction still recovers the
actions only through the strict whole-payload parses: from a fenced block,
or when the array is the entire (stripped) response. -/
theorem claim_C4_amended :
    (∀ body tail : List Char,
       body.all (fun c => !(c == '[' || c == ']')) = true →
       bracketSegment ('[' :: (body ++ ']' :: tail)) = some ('[' :: (body ++ [']']))) ∧
    (∀ (text : String) (js : List Char) (items : List JVal),
       rawArrayBranch text.data = none →
       findFenced text.data = some js →
       headIsCh '[' (pyStripChars js) = true →
       jparse (String.mk js) = some (JVal.jarr items) →
       extract_json_from_response text = some (normalizeActions items)) ∧
    (∀ (text : String) (items : List JVal),
       rawArrayBranch text.data = none →
       findFenced text.data = none →
       fallbackArrayScan text.data = none →
       headIsCh '[' (pyStripChars text.data) = true →
       jparse (String.mk (pyStripChars text.data)) = some (JVal.jarr items) →
       extract_json_from_response text = some (normalizeActions items)) := by
  refine ⟨?_, ?_, ?_⟩
  · intro body tail hall
    simp only [bracketSegment]
    rw [bracketScanGo_no_brackets body tail ['['] hall]
    rfl
  · intro text js items h1 h2 h3 h4
    simp only [extract_json_from_response, h1, h2, fencedProcess, h3, if_true, h4]
  · intro text items h1 h2 h3 h4 h5
    have hemp : text.data.isEmpty = false := by
      cases hd : text.data with
      | nil =>
        rw [hd] at h4
        cases h4
      | cons c r => rfl
    have hbr : headIsCh '{' (pyStripChars text.data) = false := by
      revert h4
      unfold headIsCh
      cases pyStripChars text.data with
      | nil => intro h; cases h
      | cons c r =>
        intro h
        have : c = '[' := by simpa using h
        simp [this]
    simp only [extract_json_from_response, h1, h2, fallbackBranch, hemp,
      Bool.false_eq_true, if_false, h4, if_true, h3]
    simp only [fallbackBranch.fallbackFinal, hbr, Bool.false_and, if_false, h5]
    simp [h5]

-- The raw one-action array with a bracket character inside a string value.
def exC4arr : String :=
  "[\x7b\"action\": \"run_command\", \"args\": \x7b\"command_string\": \"echo ]\"\x7d\x7d]"

def exC4item : JVal :=
  JVal.jobj [("action", JVal.jstr "run_command"),
             ("args", JVal.jobj [("command_string", JVal.jstr "echo ]")])]

/-- C4: counterexample.  A response consisting of a well-formed one-action
array whose string value contains a bracket character, followed by the
trailing text " ok", extracts to nothing: the bracket scan closes the
array inside the string value, the mislocated segment fails to parse, and
every fallback also fails — although the claim promises that extraction
still returns all of the array's actions. -/
theorem claim_C4_counterexample :
    jparse exC4arr = some (JVal.jarr [exC4item]) ∧
    hasStrAction exC4item = true ∧
    extract_json_from_response (exC4arr ++ " ok") = none :=
  ⟨rfl, rfl, rfl⟩

/-- C4 amended, witness: on a bracket-free body the scan returns the exact
segment, and the same bracket-containing array standing alone as the whole
response (no trailing text) is still recovered via the strict parse. -/
theorem claim_C4_witness :
    bracketSegment ("[\x7b\"a\": \"b\"\x7d, \x7b\"c\": 1\x7d]to be ignored").data =
      some ("[\x7b\"a\": \"b\"\x7d, \x7b\"c\": 1\x7d]").data ∧
    extract_json_from_response exC4arr = some (normalizeActions [exC4item]) := by
  constructor
  · exact claim_C4_amended.1
      ("\x7b\"a\": \"b\"\x7d, \x7b\"c\": 1\x7d").data ("to be ignored").data (by decide)
  · exact claim_C4_amended.2.2 exC4arr [exC4item] rfl rfl rfl rfl rfl

/-- C2: extraction is total — it returns either no actions or a list, and
the caller treats a missing or empty extraction as a conversational
response, never as an error; in particular a response with no JSON payload
at all (no raw action array, no fenced block, and a stripped text that
starts with neither a brace nor a bracket) extracts to nothing and is
classified conversational. -/
theorem claim_C2 :
    (∀ text : String,
       extract_json_from_response text = none ∨
       ∃ l, extract_json_from_response text = some l) ∧
    (∀ text : String,
       (extract_json_from_response text = none ∨
        extract_json_from_response text = some []) →
       classify_response text = ResponseKind.conversational) ∧
    (∀ text : String,
       rawArrayBranch text.data = none →
       findFenced text.data = none →
       headIsCh '[' (pyStripChars text.data) = false →
       headIsCh '{' (pyStripChars text.data) = false →
       extract_json_from_response text = none ∧
       classify_response text = ResponseKind.conversational) := by
  refine ⟨?_, ?_, ?_⟩
  · intro text
    cases h : extract_json_from_response text with
    | none => exact Or.inl rfl
    | some l => exact Or.inr ⟨l, rfl⟩
  · intro text h
    rcases h with h | h <;> simp [classify_response, h]
  · intro text h1 h2 h3 h4
    have hex : extract_json_from_response text = none := by
      simp only [extract_json_from_response, h1, h2]
      by_cases hemp : text.data.isEmpty
      · simp [fallbackBranch, hemp]
      · simp [fallbackBranch, hemp, h3, h4]
    exact ⟨hex, by simp [classify_response, hex]⟩

/-- C2, witness: a plain conversational reply extracts to nothing and is
classified as conversational. -/
theorem claim_C2_witness :
    extract_json_from_response "Sure, I can help with that!" = none ∧
    classify_response "Sure, I can help with that!" = ResponseKind.conversational :=
  claim_C2.2.2 "Sure, I can help with that!" rfl rfl rfl rfl

end GCli
